import Mathlib

/-
Verification of the mvsep source-separation program (src/mvsep.py) against its
natural-language specification.  The numeric tensor backend is modelled with
exact rational arithmetic; per-element tensor operations are embedded as
functions on ℚ.  Shapes and indices are naturals.
-/

namespace MVSep

/-- The additive epsilon `1e-8` used in the normalization denominators
(src/mvsep.py lines 136-137 and 252). -/
def eps : ℚ := 1 / 100000000

/-- Per-element magnitude normalization, `(x - mean) / (std + 1e-8)`
(src/mvsep.py line 252, likewise lines 136-137).  The per-channel statistics
`mean` and `std` are computed by the tensor backend and passed in. -/
def normalize (x mean std : ℚ) : ℚ := (x - mean) / (std + eps)

/-- Per-element denormalization, `x * std + mean` (src/mvsep.py line 268).
Note the denominator used by `normalize` is `std + eps` while the factor here
is `std` alone. -/
def denormalize (x mean std : ℚ) : ℚ := x * std + mean

/-- Fuel-driven unfolding of Python `range(start, stop, step)`: emit `start`
and step forward while `start < stop`.  The fuel is spent one unit per
emitted element; `rangeStep` below supplies enough fuel, since a positive
step advances `start` by at least one per element. -/
def rangeStepAux : Nat → Nat → Int → Nat → List Nat
  | 0, _, _, _ => []
  | fuel + 1, start, stop, step =>
    if 0 < step ∧ (start : Int) < stop then
      start :: rangeStepAux fuel (start + step) stop step
    else
      []

/-- Python `range(start, stop, step)` for a natural `start`, integer `stop`
and natural `step`, as used by the chunk loop (src/mvsep.py line 241).
Empty when `stop ≤ start` or `step = 0`. -/
def rangeStep (start : Nat) (stop : Int) (step : Nat) : List Nat :=
  rangeStepAux (stop - start).toNat start stop step

/-- The chunk start indices traversed by the inference loop
`for i in range(0, total_length - chunk_size + 1, chunk_size - overlap)`
(src/mvsep.py line 241). -/
def chunkStarts (total_length chunk_size overlap : Nat) : List Nat :=
  rangeStep 0 ((total_length : Int) - chunk_size + 1) (chunk_size - overlap)

/-- The chunk count computed for the progress bar,
`num_chunks = (total_length - overlap) // (chunk_size - overlap)`
(src/mvsep.py line 230); Python `//` is floor division. -/
def numChunksCode (total_length chunk_size overlap : Nat) : Int :=
  Int.fdiv ((total_length : Int) - overlap) ((chunk_size : Int) - overlap)

/-- The cross-fade length `overlap // 2` (src/mvsep.py line 234). -/
def crossFadeLength (overlap : Nat) : Nat := overlap / 2

/-- Element `j` of `torch.linspace(0, 1, L)` (src/mvsep.py line 278):
`j / (L - 1)` for `L ≥ 2`, and `0` for the single-element ramp. -/
def fadeInRamp (L j : Nat) : ℚ :=
  if L = 1 then 0 else (j : ℚ) / ((L - 1 : Nat) : ℚ)

/-- Element `j` of `torch.linspace(1, 0, L)` (src/mvsep.py line 279):
`1 - j / (L - 1)` for `L ≥ 2`, and `1` for the single-element ramp. -/
def fadeOutRamp (L j : Nat) : ℚ :=
  if L = 1 then 1 else 1 - (j : ℚ) / ((L - 1 : Nat) : ℚ)

/-- One iteration of the overlap-add loop body acting on the output buffer
(src/mvsep.py lines 277-291), for the chunk starting at sample `i` with
reconstructed samples `chunk`.  For `i > 0` the first `overlap/2` buffer
samples of the region are replaced by
`buf * fadeOut + chunk * fadeIn` (lines 282-288); then samples
`[i + overlap/2, i + chunk_size)` are overwritten with the chunk verbatim
(line 291).  For `i = 0` the fade branch is skipped and only line 291 runs. -/
def writeChunk (chunk_size overlap : Nat) (buf : Nat → ℚ) (i : Nat)
    (chunk : Nat → ℚ) : Nat → ℚ :=
  let L := crossFadeLength overlap
  let buf1 : Nat → ℚ :=
    if 0 < i then
      fun n =>
        if i ≤ n ∧ n < i + L then
          buf n * fadeOutRamp L (n - i) + chunk (n - i) * fadeInRamp L (n - i)
        else buf n
    else buf
  fun n => if i + L ≤ n ∧ n < i + chunk_size then chunk (n - i) else buf1 n

/-- The output buffer after the whole chunk loop: a zero-initialized buffer
(`torch.zeros_like`, src/mvsep.py line 231) folded through `writeChunk` at
every chunk start.  `recon i` is the reconstructed waveform of the chunk that
starts at sample `i` (the result of model inference and iSTFT, lines
242-274, which we treat as an opaque per-chunk signal). -/
def processChunks (total_length chunk_size overlap : Nat)
    (recon : Nat → Nat → ℚ) : Nat → ℚ :=
  (chunkStarts total_length chunk_size overlap).foldl
    (fun buf i => writeChunk chunk_size overlap buf i (recon i)) (fun _ => 0)

/-- Final clipping `torch.clamp(x, -1.0, 1.0)` (src/mvsep.py line 296). -/
def clamp1 (x : ℚ) : ℚ := max (-1) (min 1 x)

/-- A single output sample of the assembled, clipped instrumental signal. -/
def inferenceOutput (total_length chunk_size overlap : Nat)
    (recon : Nat → Nat → ℚ) (n : Nat) : ℚ :=
  clamp1 (processChunks total_length chunk_size overlap recon n)

/-- The inference entry point after loading the input: the channel-count
check (src/mvsep.py lines 224-225) followed by chunk processing and the
saved waveform of exactly the input's length (lines 296-299). -/
def inferenceRun (channels total_length chunk_size overlap : Nat)
    (recon : Nat → Nat → ℚ) : Except String (List ℚ) :=
  if channels ≠ 2 then .error "Input audio must have 2 channels."
  else .ok ((List.range total_length).map
    (fun n => inferenceOutput total_length chunk_size overlap recon n))

/-- Mean of a list of rationals, as the backend's `tensor.mean()` over the
frequency/time bins of one channel (src/mvsep.py line 136). -/
def listMean (l : List ℚ) : ℚ := l.sum / l.length

/-- Unbiased sample variance of a list of rationals, the square of the
backend's `tensor.std()` over the bins of one channel (src/mvsep.py
lines 136-137 and 251; torch's default correction is 1). -/
def listVarUnbiased (l : List ℚ) : ℚ :=
  (l.map (fun x => (x - listMean l) ^ 2)).sum / ((l.length - 1 : Nat) : ℚ)

/-- Per-element `torch.abs` on a real-valued tensor, as applied at
src/mvsep.py line 177 to the dataset's real-valued normalized magnitude. -/
def torchAbsReal (x : ℚ) : ℚ := |x|

/-- Per-element `torch.angle` on a real-valued tensor, as applied at
src/mvsep.py line 178: the complex argument of a real number, which is `0`
for nonnegative entries and `π` for negative entries.  Angles are recorded
in units of `π`, so the result is `0` or `1`. -/
def torchAngleReal (x : ℚ) : ℚ := if 0 ≤ x then 0 else 1

/-- Per-element `torch.angle` of a complex value `(re, im)` that lies on a
coordinate axis, in units of `π` (`some 0`, `some 1`, `some (1/2)` or
`some (-1/2)`); `none` off the axes, where the angle is irrational in these
units.  On axis-aligned inputs this is exactly the backend's angle. -/
def argPiAxis (z : ℚ × ℚ) : Option ℚ :=
  if z.2 = 0 then some (if 0 ≤ z.1 then 0 else 1)
  else if z.1 = 0 then some (if 0 < z.2 then 1 / 2 else -(1 / 2))
  else none

/-- Per-element `torch.abs` of a complex value `(re, im)` that lies on a
coordinate axis; `none` off the axes.  On axis-aligned inputs this is
exactly the backend's complex magnitude (src/mvsep.py lines 132-133). -/
def absAxis (z : ℚ × ℚ) : Option ℚ :=
  if z.2 = 0 then some |z.1| else if z.1 = 0 then some |z.2| else none

/-- The training targets computed at src/mvsep.py lines 177-178, per
element `v` of the (real-valued) tensor `vocals_spec` handed to them:
`target_mag = torch.abs(v)` and `target_phase = torch.angle(v)` (in units
of `π`). -/
def trainTargets (v : ℚ) : ℚ × ℚ := (torchAbsReal v, torchAngleReal v)

/-- The requested segment length in frames,
`self.segment_length // self.hop_length` (src/mvsep.py lines 141-147). -/
def segLenFrames (segment_length hop_length : Nat) : Nat :=
  segment_length / hop_length

/-- Model of `torch.randint(0, high, (1,))` with raw draw `r`: its possible
values are exactly `r % high` for arbitrary `r`, and it raises a
`RuntimeError` ("random_ expects 'from' to be less than 'to'") when
`high = 0`, i.e. when `low = high = 0`. -/
def torchRandint0 (high r : Nat) : Except String Nat :=
  if high = 0 then .error "random_ expects from to be less than to"
  else .ok (r % high)

/-- The segmentation step of `MUSDBDataset.__getitem__` (src/mvsep.py lines
140-147) applied to one channel/bin row of the spectrogram, whose frames are
`spec` and whose frame count is `spec.length`: when
`spec.length ≥ segF` a window start is drawn by
`torch.randint(0, spec.length - segF)` and the `segF`-frame slice at it is
returned; otherwise the row is zero-padded at the trailing edge to `segF`
frames by `F.pad`. -/
def getItemSegment (spec : List ℚ) (segF r : Nat) : Except String (List ℚ) :=
  if spec.length ≥ segF then
    match torchRandint0 (spec.length - segF) r with
    | .error e => .error e
    | .ok start => .ok ((spec.drop start).take segF)
  else
    .ok (spec ++ List.replicate (segF - spec.length) 0)

/-- The dataset's channel-count gate (src/mvsep.py lines 114-116): item
construction raises `ValueError("Audio files must have 2 channels.")` when
either loaded file is not 2-channel.  The downstream spectrogram and
normalization work is passed as a thunk `rest`, evaluated only when the
gate passes, mirroring that the `raise` precedes any transform. -/
def datasetGetItem {α : Type} (mixCh vocCh : Nat) (rest : Unit → α) :
    Except String α :=
  if mixCh ≠ 2 ∨ vocCh ≠ 2 then .error "Audio files must have 2 channels."
  else .ok (rest ())

/-- The bookkeeping state of the training loop (src/mvsep.py lines 152-156):
step counter, running average loss, per-step loss history, and the current
model and optimizer states (opaque, types `α` and `β`). -/
structure TrainState (α β : Type) where
  step : Nat
  avg_loss : ℚ
  loss_log : List ℚ
  model : α
  optimizer : β
deriving DecidableEq

/-- The record persisted by `torch.save` at src/mvsep.py lines 200-206,
with exactly the five keys of that dict. -/
structure Checkpoint (α β : Type) where
  step : Nat
  model_state_dict : α
  optimizer_state_dict : β
  avg_loss : ℚ
  loss_log : List ℚ
deriving DecidableEq

/-- Build the checkpoint record from the current training state
(src/mvsep.py lines 200-206). -/
def saveCheckpoint {α β : Type} (s : TrainState α β) : Checkpoint α β :=
  ⟨s.step, s.model, s.optimizer, s.avg_loss, s.loss_log⟩

/-- Restore a training state from a checkpoint (src/mvsep.py lines 162-168):
model and optimizer states are replaced via `load_state_dict`, and `step`,
`avg_loss` and `loss_log` are taken from the record. -/
def loadCheckpoint {α β : Type} (c : Checkpoint α β) : TrainState α β :=
  ⟨c.step, c.avg_loss, c.loss_log, c.model_state_dict, c.optimizer_state_dict⟩

/-- One iteration of the inner training loop (src/mvsep.py lines 173-208)
acting on the bookkeeping state.  The gradient step itself is opaque: the
iteration's `outcome` supplies the loss value computed at line 184 and the
model/optimizer states after lines 186-190.  The running-average update and
log append are lines 192-194, the increment is line 194, and the checkpoint
condition `step % checkpoint_steps == 0` is tested after the increment
(line 198), emitting the record of lines 200-206. -/
def trainStep {α β : Type} (checkpoint_steps : Nat) (s : TrainState α β)
    (outcome : ℚ × α × β) : TrainState α β × Option (Checkpoint α β) :=
  let loss := outcome.1
  let avg := (s.avg_loss * (s.step : ℚ) + loss) / ((s.step : ℚ) + 1)
  let s2 : TrainState α β :=
    ⟨s.step + 1, avg, s.loss_log ++ [loss], outcome.2.1, outcome.2.2⟩
  (s2, if (s.step + 1) % checkpoint_steps = 0 then some (saveCheckpoint s2)
       else none)

/-- The training loop folded over a list of per-iteration outcomes,
returning the final state and the checkpoints persisted along the way, in
order. -/
def trainRun {α β : Type} (checkpoint_steps : Nat) :
    TrainState α β → List (ℚ × α × β) → TrainState α β × List (Checkpoint α β)
  | s, [] => (s, [])
  | s, o :: os =>
    let r := trainStep checkpoint_steps s o
    let rest := trainRun checkpoint_steps r.1 os
    (rest.1, r.2.toList ++ rest.2)

/-- The state at entry of `train` before any resume (src/mvsep.py lines
154-156): step 0, zero average loss, empty loss log. -/
def initTrainState {α β : Type} (m : α) (o : β) : TrainState α β :=
  ⟨0, 0, [], m, o⟩

/-- The action `main` takes after parsing (src/mvsep.py lines 325-346). -/
inductive MainAction where
  | runTrain
  | runInfer
  | usageMessage
  | missingInputMessage
deriving DecidableEq

/-- Mode dispatch in `main` (src/mvsep.py lines 325-346): `if args.train`
runs training, `elif args.infer` runs inference (printing a message and
returning when `--input_wav` is absent, lines 338-340), `else` prints
"Please specify either --train or --infer" and returns normally. -/
def mainDispatch (trainFlag inferFlag : Bool) (inputWav : Option String) :
    MainAction :=
  if trainFlag then .runTrain
  else if inferFlag then
    (if inputWav.isNone then .missingInputMessage else .runInfer)
  else .usageMessage

/-- With zero step or an exhausted stop, the range unfolding is empty. -/
theorem rangeStepAux_nil (fuel start : Nat) (stop : Int) (step : Nat)
    (h : stop ≤ (start : Int) ∨ step = 0) :
    rangeStepAux fuel start stop step = [] := by
  cases fuel with
  | zero => rfl
  | succ f =>
    simp only [rangeStepAux, ite_eq_right_iff]
    rintro ⟨h1, h2⟩
    exfalso
    omega

/-- An arithmetic progression of `n + 1` terms splits off its head. -/
theorem range_map_progression (a S n : Nat) :
    (List.range (n + 1)).map (fun k => a + k * S)
      = a :: (List.range n).map (fun k => (a + S) + k * S) := by
  rw [List.range_succ_eq_map, List.map_cons, List.map_map]
  congr 1
  · simp
  · have h : ((fun k => a + k * S) ∘ Nat.succ) = fun k => (a + S) + k * S := by
      funext k
      simp only [Function.comp_apply, Nat.succ_eq_add_one]
      ring
    rw [h]

/-- Characterization of the range unfolding for a positive step and a
natural stop above the start: it lists the arithmetic progression of stride
`S` from `start`, with `(stopN - 1 - start) / S + 1` elements. -/
theorem rangeStepAux_eq_map (S : Nat) (hS : 0 < S) :
    ∀ (fuel stopN start : Nat), stopN ≤ start + fuel → start < stopN →
      rangeStepAux fuel start (stopN : Int) S
        = (List.range ((stopN - 1 - start) / S + 1)).map
            (fun k => start + k * S) := by
  intro fuel
  induction fuel with
  | zero =>
    intro stopN start h1 h2
    omega
  | succ f ih =>
    intro stopN start h1 h2
    rw [rangeStepAux, if_pos ⟨hS, by exact_mod_cast h2⟩]
    by_cases h3 : start + S < stopN
    · rw [ih stopN (start + S) (by omega) h3]
      have h4 : (stopN - 1 - start) / S = (stopN - 1 - (start + S)) / S + 1 := by
        have h5 : stopN - 1 - start = (stopN - 1 - (start + S)) + S := by omega
        rw [h5, Nat.add_div_right _ hS]
      rw [h4]
      conv_rhs => rw [range_map_progression]
    · have h4 : (stopN - 1 - start) / S = 0 := Nat.div_eq_of_lt (by omega)
      rw [rangeStepAux_nil f (start + S) (stopN : Int) S (Or.inl (by omega)), h4]
      simp [List.range_succ]

/-- When the input holds at least one full chunk and the stride is positive,
the chunk starts are exactly the multiples of the stride below the chunk
count `(total_length - overlap) / (chunk_size - overlap)`. -/
theorem chunkStarts_eq_map (tl cs ov : Nat) (h1 : ov < cs) (h2 : cs ≤ tl) :
    chunkStarts tl cs ov
      = (List.range ((tl - ov) / (cs - ov))).map (fun k => k * (cs - ov)) := by
  have hS : 0 < cs - ov := by omega
  have hstop : ((tl : Int) - cs + 1) = ((tl - cs + 1 : Nat) : Int) := by omega
  rw [chunkStarts, rangeStep, hstop]
  rw [rangeStepAux_eq_map (cs - ov) hS _ (tl - cs + 1) 0 (by omega) (by omega)]
  have h3 : (tl - cs + 1 - 1 - 0) / (cs - ov) + 1 = (tl - ov) / (cs - ov) := by
    have h5 : tl - cs + 1 - 1 - 0 = tl - cs := by omega
    have h4 : tl - ov = (tl - cs) + (cs - ov) := by omega
    rw [h5, h4, Nat.add_div_right _ hS]
  rw [h3]
  simp

/-- When the input is shorter than one chunk, no chunk start is produced. -/
theorem chunkStarts_nil (tl cs ov : Nat) (h : tl < cs) :
    chunkStarts tl cs ov = [] := by
  rw [chunkStarts, rangeStep]
  exact rangeStepAux_nil _ _ _ _ (Or.inl (by omega))

/-- C2: for inputs holding at least one full chunk, the inference loop
advances the chunk start by the stride `chunk_size - overlap` from 0 while
`i + chunk_size ≤ total_length`; the number of chunks processed equals
`(total_length - overlap) // (chunk_size - overlap)` (the `num_chunks` of
src/mvsep.py line 230), and every sample index touched by a chunk is
strictly below `total_length`, so trailing samples beyond the last full
chunk boundary are never processed. -/
theorem C2_chunk_iteration (tl cs ov : Nat) (h1 : ov < cs) (h2 : cs ≤ tl) :
    chunkStarts tl cs ov
      = (List.range ((tl - ov) / (cs - ov))).map (fun k => k * (cs - ov)) ∧
    (chunkStarts tl cs ov).length = (tl - ov) / (cs - ov) ∧
    ((chunkStarts (tl) cs ov).length : Int) = numChunksCode tl cs ov ∧
    (∀ i ∈ chunkStarts tl cs ov, i + cs ≤ tl) ∧
    (∀ i ∈ chunkStarts tl cs ov, ∀ j < cs, i + j < tl) := by
  have hmap := chunkStarts_eq_map tl cs ov h1 h2
  have hS : 0 < cs - ov := by omega
  have hlen : (chunkStarts tl cs ov).length = (tl - ov) / (cs - ov) := by
    rw [hmap, List.length_map, List.length_range]
  have hbound : ∀ i ∈ chunkStarts tl cs ov, i + cs ≤ tl := by
    intro i hi
    rw [hmap] at hi
    obtain ⟨k, hk, rfl⟩ := List.mem_map.mp hi
    rw [List.mem_range] at hk
    have h3 : (k + 1) * (cs - ov) ≤ ((tl - ov) / (cs - ov)) * (cs - ov) :=
      Nat.mul_le_mul_right _ hk
    have h4 : ((tl - ov) / (cs - ov)) * (cs - ov) ≤ tl - ov :=
      Nat.div_mul_le_self _ _
    have h5 : (k + 1) * (cs - ov) = k * (cs - ov) + (cs - ov) := by ring
    omega
  refine ⟨hmap, hlen, ?_, hbound, ?_⟩
  · rw [hlen, numChunksCode]
    have h3 : ((tl : Int) - ov) = ((tl - ov : Nat) : Int) := by omega
    have h4 : ((cs : Int) - ov) = ((cs - ov : Nat) : Int) := by omega
    rw [h3, h4, Int.fdiv_eq_ediv _ (by omega), Int.ofNat_ediv]
  · intro i hi j hj
    have := hbound i hi
    omega

/-- Witness for C2 at the concrete instance from the spec:
total_length 100000, chunk_size 16384, overlap 4096. -/
theorem C2_chunk_iteration_witness :
    4096 < 16384 ∧ 16384 ≤ 100000 ∧
    (chunkStarts 100000 16384 4096
      = (List.range ((100000 - 4096) / (16384 - 4096))).map
          (fun k => k * (16384 - 4096)) ∧
    (chunkStarts 100000 16384 4096).length = (100000 - 4096) / (16384 - 4096) ∧
    ((chunkStarts 100000 16384 4096).length : Int) = numChunksCode 100000 16384 4096 ∧
    (∀ i ∈ chunkStarts 100000 16384 4096, i + 16384 ≤ 100000) ∧
    (∀ i ∈ chunkStarts 100000 16384 4096, ∀ j < 16384, i + j < 100000)) :=
  ⟨by decide, by decide,
   C2_chunk_iteration 100000 16384 4096 (by decide) (by decide)⟩

/-- For the chunk at start index 0, the fade branch is skipped and samples
below `overlap/2` are left untouched by the loop body. -/
theorem writeChunk_first_skip (cs ov n : Nat) (buf chunk : Nat → ℚ)
    (h : n < crossFadeLength ov) :
    writeChunk cs ov buf 0 chunk n = buf n := by
  simp only [writeChunk, lt_self_iff_false, if_false]
  rw [if_neg]
  intro hc
  omega

/-- For the chunk at start index 0, samples in `[overlap/2, chunk_size)`
receive the reconstructed chunk verbatim. -/
theorem writeChunk_first_copy (cs ov n : Nat) (buf chunk : Nat → ℚ)
    (h1 : crossFadeLength ov ≤ n) (h2 : n < cs) :
    writeChunk cs ov buf 0 chunk n = chunk n := by
  simp only [writeChunk]
  rw [if_pos ⟨by omega, by omega⟩]
  simp

/-- C1 counterexample: the claim that the first chunk is written verbatim
into the zero-initialized buffer at every position fails.  With
chunk_size 8, overlap 4, a single chunk (total_length 8) whose
reconstruction is constantly 1/2, the buffer sample 0 after processing the
first chunk is 0, not the reconstructed value 1/2: the `i == 0` iteration
skips the fade branch and line 291 only writes samples
`[overlap/2, chunk_size)`. -/
theorem C1_counterexample :
    processChunks 8 8 4 (fun _ _ => (1 : ℚ) / 2) 0
      ≠ (fun _ _ => (1 : ℚ) / 2) 0 0 := by
  have h1 : chunkStarts 8 8 4 = [0] := by decide
  rw [processChunks, h1]
  simp only [List.foldl_cons, List.foldl_nil]
  rw [writeChunk_first_skip 8 4 0 _ _ (by decide)]
  norm_num

/-- C1 (amended): after processing the first chunk (start index 0) into the
zero-initialized buffer, samples `[overlap/2, chunk_size)` hold the
reconstructed chunk verbatim, while the first `overlap/2` samples remain
zero. -/
theorem C1_first_chunk (cs ov n : Nat) (chunk : Nat → ℚ) :
    (n < crossFadeLength ov →
      writeChunk cs ov (fun _ => 0) 0 chunk n = 0) ∧
    (crossFadeLength ov ≤ n → n < cs →
      writeChunk cs ov (fun _ => 0) 0 chunk n = chunk n) := by
  constructor
  · intro h
    exact writeChunk_first_skip cs ov n _ chunk h
  · intro h1 h2
    exact writeChunk_first_copy cs ov n _ chunk h1 h2

/-- Witness for C1 (amended) at chunk_size 8, overlap 4, sample 1 (inside
the skipped fade region) with a constant reconstruction 1/2. -/
theorem C1_first_chunk_witness :
    ((1 : Nat) < crossFadeLength 4 →
      writeChunk 8 4 (fun _ => 0) 0 (fun _ => (1 : ℚ) / 2) 1 = 0) ∧
    (crossFadeLength 4 ≤ 1 → 1 < 8 →
      writeChunk 8 4 (fun _ => 0) 0 (fun _ => (1 : ℚ) / 2) 1
        = (fun _ => (1 : ℚ) / 2) 1) :=
  C1_first_chunk 8 4 1 (fun _ => (1 : ℚ) / 2)

/-- C3: for every chunk after the first, each sample in the cross-fade
region `[i, i + overlap/2)` of the buffer becomes the existing buffer
content scaled by the fade-out ramp plus the new chunk's reconstruction
scaled by the fade-in ramp, and at every position the two ramp weights are
in `[0, 1]` and sum to 1 (a convex combination). -/
theorem C3_crossfade (cs ov i j : Nat) (buf chunk : Nat → ℚ)
    (hi : 0 < i) (hj : j < crossFadeLength ov) :
    writeChunk cs ov buf i chunk (i + j)
      = buf (i + j) * fadeOutRamp (crossFadeLength ov) j
        + chunk j * fadeInRamp (crossFadeLength ov) j ∧
    fadeInRamp (crossFadeLength ov) j + fadeOutRamp (crossFadeLength ov) j = 1 ∧
    0 ≤ fadeInRamp (crossFadeLength ov) j ∧
    fadeInRamp (crossFadeLength ov) j ≤ 1 ∧
    0 ≤ fadeOutRamp (crossFadeLength ov) j ∧
    fadeOutRamp (crossFadeLength ov) j ≤ 1 := by
  set L := crossFadeLength ov with hL
  have hwrite : writeChunk cs ov buf i chunk (i + j)
      = buf (i + j) * fadeOutRamp L j + chunk j * fadeInRamp L j := by
    simp only [writeChunk, ← hL]
    rw [if_neg (by omega), if_pos hi, if_pos ⟨by omega, by omega⟩]
    simp
  have hramps : fadeInRamp L j + fadeOutRamp L j = 1 ∧
      0 ≤ fadeInRamp L j ∧ fadeInRamp L j ≤ 1 ∧
      0 ≤ fadeOutRamp L j ∧ fadeOutRamp L j ≤ 1 := by
    by_cases h1 : L = 1
    · simp [fadeInRamp, fadeOutRamp, h1]
    · have h2 : 2 ≤ L := by omega
      have h3 : (0 : ℚ) < ((L - 1 : Nat) : ℚ) := by
        have : 1 ≤ L - 1 := by omega
        exact_mod_cast Nat.lt_of_lt_of_le Nat.zero_lt_one this
      have h4 : (0 : ℚ) ≤ (j : ℚ) / ((L - 1 : Nat) : ℚ) :=
        div_nonneg (by positivity) (le_of_lt h3)
      have h5 : (j : ℚ) / ((L - 1 : Nat) : ℚ) ≤ 1 := by
        rw [div_le_one h3]
        exact_mod_cast Nat.le_sub_one_of_lt hj
      simp only [fadeInRamp, fadeOutRamp, if_neg h1]
      refine ⟨by ring, h4, h5, by linarith, by linarith⟩
  exact ⟨hwrite, hramps⟩

/-- Witness for C3 at chunk_size 8, overlap 4 (fade length 2), chunk start
4, fade position 1, with a constant buffer 1/4 and constant chunk 1/2. -/
theorem C3_crossfade_witness :
    0 < 4 ∧ 1 < crossFadeLength 4 ∧
    (writeChunk 8 4 (fun _ => (1 : ℚ) / 4) 4 (fun _ => (1 : ℚ) / 2) (4 + 1)
      = (fun _ => (1 : ℚ) / 4) (4 + 1) * fadeOutRamp (crossFadeLength 4) 1
        + (fun _ => (1 : ℚ) / 2) 1 * fadeInRamp (crossFadeLength 4) 1 ∧
    fadeInRamp (crossFadeLength 4) 1 + fadeOutRamp (crossFadeLength 4) 1 = 1 ∧
    0 ≤ fadeInRamp (crossFadeLength 4) 1 ∧
    fadeInRamp (crossFadeLength 4) 1 ≤ 1 ∧
    0 ≤ fadeOutRamp (crossFadeLength 4) 1 ∧
    fadeOutRamp (crossFadeLength 4) 1 ≤ 1) :=
  ⟨by decide, by decide,
   C3_crossfade 8 4 4 1 (fun _ => (1 : ℚ) / 4) (fun _ => (1 : ℚ) / 2)
     (by decide) (by decide)⟩

/-- C10: for a 2-channel input strictly shorter than one chunk, the
inference pipeline processes zero chunks and saves, without error, an
output of exactly the input's length whose samples are all zero. -/
theorem C10_short_input (tl cs ov : Nat) (recon : Nat → Nat → ℚ)
    (h : tl < cs) :
    chunkStarts tl cs ov = [] ∧
    inferenceRun 2 tl cs ov recon = .ok (List.replicate tl 0) := by
  have hnil := chunkStarts_nil tl cs ov h
  refine ⟨hnil, ?_⟩
  rw [inferenceRun, if_neg (by simp)]
  have hout : ∀ m : Nat, inferenceOutput tl cs ov recon m = 0 := by
    intro m
    rw [inferenceOutput, processChunks, hnil]
    simp only [List.foldl_nil, clamp1]
    norm_num
  congr 1
  refine List.eq_replicate_iff.mpr ⟨by simp, ?_⟩
  intro b hb
  obtain ⟨m, hm, rfl⟩ := List.mem_map.mp hb
  exact hout m

/-- Witness for C10 at a 5000-sample input with chunk_size 16384 and
overlap 4096. -/
theorem C10_short_input_witness :
    5000 < 16384 ∧
    (chunkStarts 5000 16384 4096 = [] ∧
    inferenceRun 2 5000 16384 4096 (fun _ _ => 0)
      = .ok (List.replicate 5000 0)) :=
  ⟨by decide, C10_short_input 5000 16384 4096 (fun _ _ => 0) (by decide)⟩

/-- C4 counterexample: normalize-then-denormalize with the same statistics
is not the exact identity, because `normalize` divides by `std + 1e-8`
while `denormalize` multiplies by `std` alone.  At `x = 1`, `mean = 0`,
`std = 1` the round trip returns `10^8 / (10^8 + 1)`, not `1`. -/
theorem C4_counterexample :
    denormalize (normalize 1 0 1) 0 1 ≠ 1 := by
  rw [normalize, denormalize, eps]
  norm_num

/-- C4 (amended): with statistics `mean` and `std ≥ 0`, the round trip
equals `mean + (x - mean) * std / (std + 1e-8)`: it shrinks the deviation
from the mean by the factor `std / (std + 1e-8)` and is exact precisely
when `x = mean` (in particular for an all-zero magnitude tensor, where
every element and the mean are 0 and `std = 0`).  The denominator
`std + 1e-8` is strictly positive, so no division by zero (hence no
NaN/Inf) occurs, silent segments included. -/
theorem C4_normalization_roundtrip (x mean std : ℚ) (h : 0 ≤ std) :
    0 < std + eps ∧
    denormalize (normalize x mean std) mean std
      = mean + (x - mean) * (std / (std + eps)) ∧
    (denormalize (normalize x mean std) mean std = x ↔ x = mean) := by
  have heps : (0 : ℚ) < eps := by rw [eps]; norm_num
  have hpos : 0 < std + eps := by linarith
  have hne : std + eps ≠ 0 := ne_of_gt hpos
  have hkey : denormalize (normalize x mean std) mean std - x
      = (mean - x) * (eps / (std + eps)) := by
    rw [normalize, denormalize]
    field_simp
    ring
  refine ⟨hpos, ?_, ?_⟩
  · rw [normalize, denormalize]
    field_simp
    ring
  · constructor
    · intro hEq
      have h0 : (mean - x) * (eps / (std + eps)) = 0 := by
        rw [← hkey, hEq]
        ring
      rcases mul_eq_zero.mp h0 with h1 | h1
      · linarith
      · rcases div_eq_zero_iff.mp h1 with h2 | h2
        · exact absurd h2 (ne_of_gt heps)
        · exact absurd h2 hne
    · intro hx
      rw [hx, normalize, denormalize]
      simp

/-- Witness for C4 (amended) at the all-zero segment: `x = mean = std = 0`,
where the round trip is exact. -/
theorem C4_normalization_roundtrip_witness :
    (0 : ℚ) ≤ 0 ∧
    (0 < (0 : ℚ) + eps ∧
     denormalize (normalize 0 0 0) 0 0
       = 0 + ((0 : ℚ) - 0) * (0 / (0 + eps)) ∧
     (denormalize (normalize 0 0 0) 0 0 = 0 ↔ (0 : ℚ) = 0)) :=
  ⟨le_refl 0, C4_normalization_roundtrip 0 0 0 (le_refl 0)⟩

set_option maxRecDepth 4000 in
/-- C5 (code bug): evaluating the dataset segmentation at a track whose
spectrogram has exactly `segment_length // hop_length` time frames
(258 frames for the defaults 264600 and 1024).  The `>=` branch is taken
and `torch.randint(0, T - segF) = torch.randint(0, 0)` raises, so item
access fails where the claim (and the padding branch one frame away)
says it must succeed. -/
theorem C5_equal_length_crash :
    getItemSegment (List.replicate (segLenFrames 264600 1024) (0 : ℚ))
        (segLenFrames 264600 1024) 0
      = .error "random_ expects from to be less than to" := by
  rfl

/-- C6 counterexample: a target spectrogram whose bins all hold the complex
value `i = (0, 1)` (magnitude 1, phase `π/2`).  The dataset normalizes the
real magnitude tensor (mean 1, std 0 over the three bins shown), handing
the training loop the real value 0; `torch.angle` of that real tensor is
0, not the spectrogram's phase `π/2`.  Angles are in units of `π`. -/
theorem C6_counterexample :
    listMean [1, 1, 1] = 1 ∧
    listVarUnbiased [1, 1, 1] = 0 ∧
    absAxis (0, 1) = some 1 ∧
    argPiAxis (0, 1) = some (1 / 2) ∧
    some (trainTargets (normalize 1 1 0)).2 ≠ argPiAxis (0, 1) := by
  refine ⟨?_, ?_, ?_, ?_, ?_⟩ <;>
    norm_num [listMean, listVarUnbiased, absAxis, argPiAxis, trainTargets,
      torchAngleReal, torchAbsReal, normalize, eps]

/-- C6 (amended): the tensor handed to `torch.abs` and `torch.angle` in the
training loop is the dataset's real-valued normalized magnitude
spectrogram, so the magnitude target is its absolute value and the phase
target is the angle of a real number: 0 at nonnegative entries and `π`
(value 1 in units of `π`) at negative entries — not the complex
spectrogram's phase. -/
theorem C6_train_targets (m mean std : ℚ) :
    trainTargets (normalize m mean std)
      = (|normalize m mean std|, torchAngleReal (normalize m mean std)) ∧
    ((trainTargets (normalize m mean std)).2 = 0 ∨
     (trainTargets (normalize m mean std)).2 = 1) := by
  refine ⟨rfl, ?_⟩
  by_cases h : 0 ≤ normalize m mean std
  · left
    simp [trainTargets, torchAngleReal, h]
  · right
    simp [trainTargets, torchAngleReal, h]

/-- C8: with a channel count different from 2, the dataset item
construction fails with the channel-count error independently of the
downstream transform (which never runs), and the inference pipeline fails
with its channel-count error independently of the chunk reconstruction. -/
theorem C8_channel_count {α : Type} (mixCh vocCh ch tl cs ov : Nat)
    (ds1 ds2 : Unit → α) (recon recon2 : Nat → Nat → ℚ)
    (hd : mixCh ≠ 2 ∨ vocCh ≠ 2) (hc : ch ≠ 2) :
    datasetGetItem mixCh vocCh ds1
      = .error "Audio files must have 2 channels." ∧
    datasetGetItem mixCh vocCh ds1 = datasetGetItem mixCh vocCh ds2 ∧
    inferenceRun ch tl cs ov recon
      = .error "Input audio must have 2 channels." ∧
    inferenceRun ch tl cs ov recon = inferenceRun ch tl cs ov recon2 := by
  refine ⟨?_, ?_, ?_, ?_⟩
  · rw [datasetGetItem, if_pos hd]
  · rw [datasetGetItem, if_pos hd, datasetGetItem, if_pos hd]
  · rw [inferenceRun, if_pos hc]
  · rw [inferenceRun, if_pos hc, inferenceRun, if_pos hc]

/-- Witness for C8 with a 1-channel mixture and a 1-channel inference
input. -/
theorem C8_channel_count_witness :
    ((1 : Nat) ≠ 2 ∨ (2 : Nat) ≠ 2) ∧ (1 : Nat) ≠ 2 ∧
    (datasetGetItem 1 2 (fun _ => (0 : ℚ))
      = .error "Audio files must have 2 channels." ∧
    datasetGetItem 1 2 (fun _ => (0 : ℚ))
      = datasetGetItem 1 2 (fun _ => (1 : ℚ)) ∧
    inferenceRun 1 10 4 2 (fun _ _ => 0)
      = .error "Input audio must have 2 channels." ∧
    inferenceRun 1 10 4 2 (fun _ _ => 0)
      = inferenceRun 1 10 4 2 (fun _ _ => 1)) :=
  ⟨by decide, by decide,
   C8_channel_count 1 2 1 10 4 2 (fun _ => (0 : ℚ)) (fun _ => (1 : ℚ))
     (fun _ _ => 0) (fun _ _ => 1) (by decide) (by decide)⟩

/-- C9: with neither flag selected, `main` prints the usage message and
returns normally — no training and no inference runs; with both flags
supplied, exactly one mode runs (training, by the `if`/`elif` order). -/
theorem C9_mode_dispatch (inputWav : Option String) :
    mainDispatch false false inputWav = .usageMessage ∧
    mainDispatch false false inputWav ≠ .runTrain ∧
    mainDispatch false false inputWav ≠ .runInfer ∧
    mainDispatch true true inputWav = .runTrain ∧
    mainDispatch true true inputWav ≠ .runInfer :=
  ⟨rfl, by simp [mainDispatch], by simp [mainDispatch], rfl,
   by simp [mainDispatch]⟩

/-- Splitting the head off a shifted-successor progression. -/
theorem range_map_succ_shift (a n : Nat) :
    (List.range (n + 1)).map (fun k => a + k + 1)
      = (a + 1) :: (List.range n).map (fun k => (a + 1) + k + 1) := by
  rw [List.range_succ_eq_map, List.map_cons, List.map_map]
  congr 1
  have h : ((fun k => a + k + 1) ∘ Nat.succ) = fun k => (a + 1) + k + 1 := by
    funext k
    simp only [Function.comp_apply, Nat.succ_eq_add_one]
    omega
  rw [h]

/-- The bookkeeping state after one training iteration advances the step
counter by one. -/
theorem trainStep_step {α β : Type} (cs : Nat) (s : TrainState α β)
    (o : ℚ × α × β) : (trainStep cs s o).1.step = s.step + 1 := rfl

/-- When the incremented step hits the cadence, the iteration emits the
checkpoint of its post-iteration state. -/
theorem trainStep_snd_pos {α β : Type} (cs : Nat) (s : TrainState α β)
    (o : ℚ × α × β) (h : (s.step + 1) % cs = 0) :
    (trainStep cs s o).2 = some (saveCheckpoint (trainStep cs s o).1) := by
  simp [trainStep, h]

/-- Off the cadence, the iteration emits no checkpoint. -/
theorem trainStep_snd_neg {α β : Type} (cs : Nat) (s : TrainState α β)
    (o : ℚ × α × β) (h : ¬(s.step + 1) % cs = 0) :
    (trainStep cs s o).2 = none := by
  simp [trainStep, h]

/-- The steps at which the training loop persists checkpoints are exactly
the multiples of `checkpoint_steps` among the steps it executes. -/
theorem trainRun_steps_map {α β : Type} (cs : Nat) :
    ∀ (os : List (ℚ × α × β)) (s : TrainState α β),
      (trainRun cs s os).2.map Checkpoint.step
        = ((List.range os.length).map (fun k => s.step + k + 1)).filter
            (fun k => k % cs = 0) := by
  intro os
  induction os with
  | nil =>
    intro s
    rfl
  | cons o rest ih =>
    intro s
    have hsplit : (trainRun cs s (o :: rest)).2
        = (trainStep cs s o).2.toList
          ++ (trainRun cs (trainStep cs s o).1 rest).2 := rfl
    rw [hsplit, List.map_append, ih (trainStep cs s o).1, trainStep_step]
    rw [List.length_cons, range_map_succ_shift, List.filter_cons]
    by_cases hcond : (s.step + 1) % cs = 0
    · rw [trainStep_snd_pos cs s o hcond, if_pos (by simp [hcond])]
      rfl
    · rw [trainStep_snd_neg cs s o hcond, if_neg (by simp [hcond])]
      rfl

/-- Peeling one iteration off the front of a training run. -/
theorem trainRun_cons_fst {α β : Type} (cs : Nat) (s : TrainState α β)
    (o : ℚ × α × β) (l : List (ℚ × α × β)) :
    (trainRun cs s (o :: l)).1 = (trainRun cs (trainStep cs s o).1 l).1 := rfl

/-- Every checkpoint persisted during a run records a step beyond the
starting step, a step that is a multiple of the cadence, and exactly the
bookkeeping state reached after that many iterations. -/
theorem trainRun_checkpoint_state {α β : Type} (cs : Nat) :
    ∀ (os : List (ℚ × α × β)) (s : TrainState α β),
      ∀ ck ∈ (trainRun cs s os).2,
        s.step < ck.step ∧ ck.step % cs = 0 ∧
        saveCheckpoint (trainRun cs s (os.take (ck.step - s.step))).1 = ck := by
  intro os
  induction os with
  | nil =>
    intro s ck hck
    simp [trainRun] at hck
  | cons o rest ih =>
    intro s ck hck
    have hsplit : (trainRun cs s (o :: rest)).2
        = (trainStep cs s o).2.toList
          ++ (trainRun cs (trainStep cs s o).1 rest).2 := rfl
    rw [hsplit, List.mem_append] at hck
    rcases hck with hck | hck
    · by_cases hcond : (s.step + 1) % cs = 0
      · rw [trainStep_snd_pos cs s o hcond] at hck
        simp only [Option.toList_some, List.mem_singleton] at hck
        subst hck
        have hstep : (saveCheckpoint (trainStep cs s o).1).step = s.step + 1 :=
          rfl
        refine ⟨?_, ?_, ?_⟩
        · rw [hstep]
          omega
        · rw [hstep]
          exact hcond
        · rw [hstep]
          have h1 : s.step + 1 - s.step = 1 := by omega
          rw [h1]
          rfl
      · rw [trainStep_snd_neg cs s o hcond] at hck
        simp at hck
    · obtain ⟨h1, h2, h3⟩ := ih (trainStep cs s o).1 ck hck
      rw [trainStep_step] at h1 h3
      refine ⟨by omega, h2, ?_⟩
      have htake : ck.step - s.step = (ck.step - (s.step + 1)) + 1 := by omega
      rw [htake, List.take_succ_cons, trainRun_cons_fst]
      exact h3

/-- C7: restoring a checkpoint recovers the step counter, running average
loss, model parameters, optimizer state and full loss history exactly as
they were at save time; during a run from scratch, a checkpoint is
persisted exactly at the steps that are positive multiples of
`checkpoint_steps`, and resuming from any persisted checkpoint reproduces
exactly the training state after that many iterations.  The `Checkpoint`
record carries exactly the five saved fields. -/
theorem C7_checkpointing {α β : Type} (checkpoint_steps : Nat) (m : α)
    (o : β) (os : List (ℚ × α × β)) (s : TrainState α β)
    (hcs : 0 < checkpoint_steps) :
    loadCheckpoint (saveCheckpoint s) = s ∧
    (trainRun checkpoint_steps (initTrainState m o) os).2.map Checkpoint.step
      = ((List.range os.length).map (fun k => k + 1)).filter
          (fun k => k % checkpoint_steps = 0) ∧
    (∀ ck ∈ (trainRun checkpoint_steps (initTrainState m o) os).2,
      0 < ck.step ∧ ck.step % checkpoint_steps = 0 ∧
      loadCheckpoint ck
        = (trainRun checkpoint_steps (initTrainState m o)
            (os.take ck.step)).1) := by
  refine ⟨rfl, ?_, ?_⟩
  · rw [trainRun_steps_map]
    simp [initTrainState]
  · intro ck hck
    obtain ⟨h1, h2, h3⟩ :=
      trainRun_checkpoint_state checkpoint_steps os (initTrainState m o) ck hck
    have h4 : (initTrainState m o : TrainState α β).step = 0 := rfl
    rw [h4] at h1 h3
    rw [Nat.sub_zero] at h3
    have h5 : loadCheckpoint ck
        = (trainRun checkpoint_steps (initTrainState m o)
            (os.take ck.step)).1 := by
      conv_lhs => rw [← h3]
      rfl
    exact ⟨h1, h2, h5⟩

/-- Witness for C7 with cadence 2 and a three-iteration run over concrete
losses and opaque states drawn from ℚ and ℕ. -/
theorem C7_checkpointing_witness :
    0 < 2 ∧
    (loadCheckpoint (saveCheckpoint
        (initTrainState (5 : Nat) (7 : Nat))) = initTrainState 5 7 ∧
    (trainRun 2 (initTrainState (5 : Nat) (7 : Nat))
        [(1, 6, 8), (2, 9, 4), (3, 2, 2)]).2.map Checkpoint.step
      = ((List.range ([(1, 6, 8), (2, 9, 4), ((3 : ℚ), (2 : Nat), (2 : Nat))].length)).map
          (fun k => k + 1)).filter (fun k => k % 2 = 0) ∧
    (∀ ck ∈ (trainRun 2 (initTrainState (5 : Nat) (7 : Nat))
        [(1, 6, 8), (2, 9, 4), (3, 2, 2)]).2,
      0 < ck.step ∧ ck.step % 2 = 0 ∧
      loadCheckpoint ck
        = (trainRun 2 (initTrainState (5 : Nat) (7 : Nat))
            ([(1, 6, 8), (2, 9, 4), (3, 2, 2)].take ck.step)).1)) :=
  ⟨by decide,
   C7_checkpointing 2 5 7 [(1, 6, 8), (2, 9, 4), (3, 2, 2)]
     (initTrainState 5 7) (by decide)⟩

end MVSep
